import Mathlib

/-
Verification of the Chess-Automation repository's specification against a
shallow embedding of its Python sources.

Conventions of the embedding:
* Python machine integers are modelled as `Int`/`Nat` (Python ints are
  unbounded, so no wrap-around is needed).
* Python `int(x)` applied to a float value is truncation toward zero; the
  float arithmetic appearing in the sources (halves of integers) is exact,
  so it is modelled over `Rat` with an explicit truncation `pyInt`.
* Python dictionaries are modelled as association lists in insertion order;
  dict assignment is insert-or-overwrite.
* Fallible Python operations (raising ValueError/KeyError/...) are modelled
  with `Option`, and the `try/except` structure of the sources becomes a
  `match` on that `Option`.
-/

/-- Python `int(q)` on an exact numeric value: truncation toward zero. -/
def pyInt (q : ℚ) : ℤ := if 0 ≤ q then ⌊q⌋ else ⌈q⌉

/-- Python `str.lower()`, character-wise (exact for the ASCII strings the
sources compare against). -/
def pyLower (s : String) : String := ⟨s.data.map Char.toLower⟩

namespace FenConverter

/-- One value of the piece-info dictionaries handed to `piece_map_to_fen`
(`{"piece": ..., "color": ...}`); a missing key raises `KeyError` in Python,
modelled by `none`. -/
structure PieceInfo where
  piece : Option String
  color : Option String
deriving Repr, DecidableEq

/-- A piece map `Dict[str, Dict[str, str]]` in insertion order. -/
abbrev PieceMap := List (String × PieceInfo)

/-- Model of `FENConverter.PIECE_SYMBOLS.get((piece_type, color))`
(src/vision/fen_converter.py lines 13-26). -/
def pieceSymbol (pieceType color : String) : Option Char :=
  if pieceType = "pawn" then
    if color = "white" then some 'P' else if color = "black" then some 'p' else none
  else if pieceType = "knight" then
    if color = "white" then some 'N' else if color = "black" then some 'n' else none
  else if pieceType = "bishop" then
    if color = "white" then some 'B' else if color = "black" then some 'b' else none
  else if pieceType = "rook" then
    if color = "white" then some 'R' else if color = "black" then some 'r' else none
  else if pieceType = "queen" then
    if color = "white" then some 'Q' else if color = "black" then some 'q' else none
  else if pieceType = "king" then
    if color = "white" then some 'K' else if color = "black" then some 'k' else none
  else none

/-- The 8x8 `board_array` of `piece_map_to_fen`: row 0 is FEN rank 8. -/
abbrev Grid := Fin 8 → Fin 8 → Option Char

/-- The singular value of `int(c)` for a one-character string in Python:
defined exactly for ASCII digits (ValueError otherwise, modelled as `none`). -/
def pyDigit (c : Char) : Option ℤ :=
  if '0' ≤ c ∧ c ≤ '9' then some ((c.toNat : ℤ) - ('0'.toNat : ℤ)) else none

/-- Processing of one `(square, piece_info)` entry of the loop in
`piece_map_to_fen` (lines 56-72): computes the target cell and symbol, or
`none` when any of the caught exceptions fires, the indices are out of
range, or the symbol lookup fails. -/
def entryCell (square : String) (info : PieceInfo) : Option (Fin 8 × Fin 8 × Char) :=
  match square.data with
  | c0 :: c1 :: _ =>
    match pyDigit c1 with
    | some d =>
      let col : ℤ := (c0.toNat : ℤ) - ('a'.toNat : ℤ)
      let row : ℤ := 8 - d
      if h : 0 ≤ col ∧ col < 8 ∧ 0 ≤ row ∧ row < 8 then
        match info.piece, info.color with
        | some p, some c =>
          match pieceSymbol (pyLower p) (pyLower c) with
          | some sym =>
            some (⟨row.toNat, by omega⟩, ⟨col.toNat, by omega⟩, sym)
          | none => none
        | _, _ => none
      else none
    | none => none
  | _ => none

/-- The assignment `board_array[row][col] = piece_symbol` for one entry (no-op when the
entry is skipped). -/
def stepGrid (g : Grid) (e : String × PieceInfo) : Grid :=
  match entryCell e.1 e.2 with
  | some (r, c, sym) => fun r' c' => if r' = r ∧ c' = c then some sym else g r' c'
  | none => g

/-- The filled `board_array` (lines 52-72). -/
def boardArray (pm : PieceMap) : Grid :=
  pm.foldl stepGrid (fun _ _ => none)

/-- The inner loop of lines 76-90 building one `fen_row`, carrying the
running `empty_count`. -/
def fenRowAux : List (Option Char) → ℕ → String
  | [], k => if k > 0 then toString k else ""
  | none :: rest, k => fenRowAux rest (k + 1)
  | some sym :: rest, k =>
    (if k > 0 then toString k else "") ++ String.singleton sym ++ fenRowAux rest 0

/-- One rank segment of the FEN layout. -/
def fenRow (cells : List (Option Char)) : String := fenRowAux cells 0

/-- The `fen_rows` list, rank 8 first (rows of `board_array` in order). -/
def fenRows (g : Grid) : List String :=
  (List.finRange 8).map (fun r => fenRow ((List.finRange 8).map (fun c => g r c)))

/-- Model of `FENConverter.piece_map_to_fen` (src/vision/fen_converter.py lines
32-102).  The Python keyword defaults are `side_to_move='white'`,
`castling_rights='KQkq'`, `en_passant='-'`, `halfmove_clock=0`,
`fullmove_number=1`. -/
def piece_map_to_fen (pm : PieceMap) (side_to_move : String)
    (castling_rights : String) (en_passant : String)
    (halfmove_clock : ℤ) (fullmove_number : ℤ) : String :=
  let position := String.intercalate "/" (fenRows (boardArray pm))
  let side := if pyLower side_to_move = "white" then "w" else "b"
  position ++ " " ++ side ++ " " ++ castling_rights ++ " " ++ en_passant ++ " "
    ++ toString halfmove_clock ++ " " ++ toString fullmove_number

/-- The call `piece_map_to_fen(piece_map)` with all keyword defaults, as the
coordinator performs each ply (src/main.py line 152). -/
def piece_map_to_fen_default (pm : PieceMap) : String :=
  piece_map_to_fen pm "white" "KQkq" "-" 0 1

/-- Value of a character of a rank segment when summing files: a digit
counts as the empty-run length it denotes, any other character counts 1. -/
def segVal (c : Char) : ℕ :=
  if c.isDigit then c.toNat - '0'.toNat else 1

/-- File count of one rank segment: digits as run lengths, letters as 1. -/
def segSum (s : String) : ℕ := (s.data.map segVal).sum

/-- A character that may appear in a cell of `board_array`: one of the
twelve piece letters, hence neither a digit nor a slash. -/
def pieceOk (ch : Char) : Prop := ¬ ch.isDigit ∧ ch ≠ '/'

end FenConverter

namespace Mapping

/-- Model of `SquareMapper` (src/control/mapping_utils.py lines 8-29): the stored
board bounding box and orientation. -/
structure SquareMapper where
  left : ℤ
  top : ℤ
  width : ℤ
  height : ℤ
  orientation : String
deriving Repr, DecidableEq

/-- Model of `SquareMapper.__init__`: stores the bbox fields and the lowercased
orientation. -/
def mkMapper (left top width height : ℤ) (orientation : String) : SquareMapper :=
  ⟨left, top, width, height, pyLower orientation⟩

/-- The cell width `self.square_width = self.width / 8` (true division, exact). -/
def squareWidth (m : SquareMapper) : ℚ := (m.width : ℚ) / 8

/-- The cell height `self.square_height = self.height / 8`. -/
def squareHeight (m : SquareMapper) : ℚ := (m.height : ℚ) / 8

/-- The validation and index conversion of `square_to_pixels` (lines 41-52):
`(col_idx, row_idx)` with `col_idx = ord(col) - ord('a')`,
`row_idx = int(row) - 1`; `ValueError` is modelled as `none`. -/
def parseSquare (square : String) : Option (ℕ × ℕ) :=
  match square.data with
  | [c0, c1] =>
    let col := c0.toLower
    if col ∈ ['a', 'b', 'c', 'd', 'e', 'f', 'g', 'h'] ∧
        c1 ∈ ['1', '2', '3', '4', '5', '6', '7', '8'] then
      some (col.toNat - 'a'.toNat, c1.toNat - '1'.toNat)
    else none
  | _ => none

/-- Lines 64-66: the centre of cell `(pixel_col, pixel_row)`, with Python's
`int()` truncation. -/
def cellCenter (m : SquareMapper) (pc pr : ℕ) : ℤ × ℤ :=
  (pyInt ((m.left : ℚ) + ((pc : ℚ) + 1/2) * squareWidth m),
   pyInt ((m.top : ℚ) + ((pr : ℚ) + 1/2) * squareHeight m))

/-- Model of `SquareMapper.square_to_pixels` (lines 31-68). -/
def square_to_pixels (m : SquareMapper) (square : String) : Option (ℤ × ℤ) :=
  (parseSquare square).map (fun fr =>
    if m.orientation = "white" then cellCenter m fr.1 (7 - fr.2)
    else cellCenter m (7 - fr.1) fr.2)

/-- Model of `SquareMapper.pixels_to_square` (lines 91-118). -/
def pixels_to_square (m : SquareMapper) (x y : ℤ) : String :=
  let colIdx0 := pyInt (((x : ℚ) - m.left) / squareWidth m)
  let rowIdx0 := pyInt (((y : ℚ) - m.top) / squareHeight m)
  let colIdx := max 0 (min 7 colIdx0)
  let rowIdx := max 0 (min 7 rowIdx0)
  if m.orientation = "white" then
    String.singleton (Char.ofNat ('a'.toNat + colIdx.toNat)) ++ toString (8 - rowIdx)
  else
    String.singleton (Char.ofNat ('a'.toNat + (7 - colIdx).toNat)) ++
      toString (rowIdx + 1)

/-- The valid square whose 0-based file index is `f` and rank index is `r`. -/
def squareName (f r : ℕ) : String :=
  String.singleton (Char.ofNat ('a'.toNat + f)) ++ toString (r + 1)

end Mapping

namespace Validator

/-- The portion of the external `python-chess` rules engine that
`MoveValidator` (src/engine/move_validator.py) uses, kept abstract: move
parsing, legal-move enumeration, board mutation, FEN parsing and the
position accessors compared by `_positions_equal`.  `chess.Move.from_uci`
and `chess.Board(fen)` raise `ValueError` on bad input, modelled by `none`;
`chess.Board()` with no argument is `defaultBoard`. -/
structure ChessLib (Board Move : Type) where
  fromUci : String → Option Move
  legalMoves : Board → List Move
  push : Board → Move → Board
  uci : Move → String
  boardFromFen : String → Option Board
  boardFen : Board → String
  turn : Board → Bool
  castlingRights : Board → ℤ
  epSquare : Board → Option ℕ
  defaultBoard : Board

/-- The mutable state of a `MoveValidator`: `self.board` and
`self.move_history`. -/
structure VState (Board : Type) where
  board : Board
  move_history : List String

/-- Model of `MoveValidator.validate_move` (lines 22-41): ok iff the move parses and
is a member of the current legal-move list; does not touch the state. -/
def validate_move {Board Move : Type} [DecidableEq Move]
    (lib : ChessLib Board Move) (s : VState Board) (move_uci : String) :
    Bool × String :=
  match lib.fromUci move_uci with
  | none => (false, "Invalid move format: " ++ move_uci)
  | some m =>
    if m ∈ lib.legalMoves s.board then (true, "Move is legal")
    else (false, "Illegal move: " ++ move_uci)

/-- Model of `MoveValidator.apply_move` (lines 43-63): validates, and only on success
re-parses the move, pushes it and appends to the history.  (The inner `none`
branch is unreachable: validation succeeds only when parsing does.) -/
def apply_move {Board Move : Type} [DecidableEq Move]
    (lib : ChessLib Board Move) (s : VState Board) (move_uci : String) :
    Bool × VState Board :=
  let v := validate_move lib s move_uci
  if v.1 then
    match lib.fromUci move_uci with
    | some m => (true, ⟨lib.push s.board m, s.move_history ++ [move_uci]⟩)
    | none => (false, s)
  else (false, s)

/-- Model of `MoveValidator.sync_with_fen` (lines 65-85): replaces the board
wholesale when the FEN parses; the history is untouched. -/
def sync_with_fen {Board Move : Type} (lib : ChessLib Board Move)
    (s : VState Board) (fen : String) : (Bool × String) × VState Board :=
  match lib.boardFromFen fen with
  | some b => ((true, "Board synced successfully"), ⟨b, s.move_history⟩)
  | none => ((false, "Invalid FEN: " ++ fen), s)

/-- Model of `MoveValidator._positions_equal` (lines 114-141): piece placement, side
to move, castling rights and en-passant square; move counters excluded. -/
def positions_equal {Board Move : Type} (lib : ChessLib Board Move)
    (b1 b2 : Board) : Bool :=
  if lib.boardFen b1 ≠ lib.boardFen b2 then false
  else if lib.turn b1 ≠ lib.turn b2 then false
  else if lib.castlingRights b1 ≠ lib.castlingRights b2 then false
  else if lib.epSquare b1 ≠ lib.epSquare b2 then false
  else true

/-- The `for move in self.board.legal_moves` loop of
`detect_position_change` (lines 101-107): pushes each candidate onto a
scratch copy and returns the first match's UCI. -/
def detectFirst {Board Move : Type} (lib : ChessLib Board Move)
    (b nb : Board) : List Move → Option String
  | [] => none
  | m :: rest =>
    let test_board := lib.push b m
    if positions_equal lib test_board nb then some (lib.uci m)
    else detectFirst lib b nb rest

/-- Model of `MoveValidator.detect_position_change` (lines 87-112).  The state is
returned unchanged: the loop only pushes onto copies of the board. -/
def detect_position_change {Board Move : Type} (lib : ChessLib Board Move)
    (s : VState Board) (new_fen : String) : Option String × VState Board :=
  match lib.boardFromFen new_fen with
  | none => (none, s)
  | some nb => (detectFirst lib s.board nb (lib.legalMoves s.board), s)

/-- Model of `MoveValidator.reset` (lines 182-190): `chess.Board(fen) if fen else
chess.Board()` — Python truthiness sends both `None` and the empty string to
the default board; a malformed FEN raises out of `reset` (modelled `none`). -/
def reset {Board Move : Type} (lib : ChessLib Board Move)
    (fen : Option String) : Option (VState Board) :=
  match fen with
  | some f =>
    if f = "" then some ⟨lib.defaultBoard, []⟩
    else (lib.boardFromFen f).map (fun b => ⟨b, []⟩)
  | none => some ⟨lib.defaultBoard, []⟩

/-- A concrete instantiation of the abstract rules engine in which two
distinct legal moves lead to positions that `_positions_equal` deems equal
(all four compared accessors are constant). -/
def toyLib : ChessLib ℕ ℕ where
  fromUci _ := some 0
  legalMoves _ := [5, 6]
  push b m := b + m
  uci m := toString m
  boardFromFen _ := some 99
  boardFen _ := ""
  turn _ := true
  castlingRights _ := 0
  epSquare _ := none
  defaultBoard := 0


end Validator

namespace GameLoop

/-- The outcome of the external collaborators during one ply of
`ChessAgent.play_one_move` (src/main.py lines 189-241): whether the
recognized FEN passes `validate_fen`, whether the synced tracker reports
game over, whether the engine's move passes `validate_move`, and whether
`execute_move_on_board` succeeds. -/
structure PlyEnv where
  fenValid : Bool
  gameOver : Bool
  moveValid : Bool
  execOk : Bool
deriving Repr, DecidableEq

/-- The configuration the loop consults:
`config['error_handling']['abort_on_illegal_move']` and
`config['game_loop']['max_moves']`. -/
structure AgentCfg where
  abortOnIllegal : Bool
  maxMoves : ℕ
deriving Repr, DecidableEq

/-- The coordinator state touched by the loop: `self.move_count` and
`self.game_active`. -/
structure AgentState where
  move_count : ℕ
  game_active : Bool
deriving Repr, DecidableEq

/-- Model of `ChessAgent.play_one_move` (lines 189-241), control flow over one ply.
Note line 199-201: an invalid FEN logs "Invalid FEN detected! Skipping
move." and returns `False` without touching the counters; lines 219-224:
an invalid engine move aborts only when configured, otherwise control falls
through to execution. -/
def play_one_move (cfg : AgentCfg) (env : PlyEnv) (st : AgentState) :
    Bool × AgentState :=
  if ¬ env.fenValid then (false, st)
  else if env.gameOver then (false, { st with game_active := false })
  else if ¬ env.moveValid ∧ cfg.abortOnIllegal then
    (false, { st with game_active := false })
  else if env.execOk then (true, { st with move_count := st.move_count + 1 })
  else (false, st)

/-- The `while` loop of `ChessAgent.run` (lines 252-265) over a stream of
per-ply collaborator outcomes; the second component counts the plies
attempted (each begins with a capture).  Line 257: `if not success or not
self.game_active: break`. -/
def run_loop (cfg : AgentCfg) : List PlyEnv → AgentState → AgentState × ℕ
  | [], st => (st, 0)
  | env :: rest, st =>
    if st.game_active ∧ st.move_count < cfg.maxMoves then
      let r := play_one_move cfg env st
      if ¬ r.1 ∨ ¬ r.2.game_active then (r.2, 1)
      else
        let t := run_loop cfg rest r.2
        (t.1, t.2 + 1)
    else (st, 0)

end GameLoop

namespace Recognition

/-- A character written by code point to keep brace characters out of
literals. -/
def lbrace : Char := Char.ofNat 123

/-- The closing-brace character. -/
def rbrace : Char := Char.ofNat 125

/-- A decoded JSON value, as returned by Python's `json.loads`.  Numbers are
modelled as integers only: replies using float literals fall outside the
model and are treated as undecodable (the surrounding code then takes the
fallback path, which is the conservative direction for every property proved
here). -/
inductive Json where
  | str (s : String)
  | num (n : ℤ)
  | jbool (b : Bool)
  | jnull
  | arr (xs : List Json)
  | obj (kvs : List (String × Json))

/-- JSON insignificant whitespace. -/
def jsonWs (c : Char) : Bool := c = ' ' || c = '\t' || c = '\n' || c = '\r'

/-- Drop insignificant whitespace. -/
def skipWs : List Char → List Char
  | c :: rest => if jsonWs c then skipWs rest else c :: rest
  | [] => []

/-- Value of a hex digit, for `\uXXXX` escapes. -/
def hexVal (c : Char) : Option ℕ :=
  if '0' ≤ c ∧ c ≤ '9' then some (c.toNat - '0'.toNat)
  else if 'a' ≤ c ∧ c ≤ 'f' then some (c.toNat - 'a'.toNat + 10)
  else if 'A' ≤ c ∧ c ≤ 'F' then some (c.toNat - 'A'.toNat + 10)
  else none

/-- Body of a JSON string after the opening quote: content up to the closing
quote, decoding the escape sequences. -/
def parseJStrBody : ℕ → List Char → List Char → Option (String × List Char)
  | 0, _, _ => none
  | _ + 1, acc, c :: rest =>
    if c = '"' then some (⟨acc.reverse⟩, rest)
    else if c = '\\' then
      match rest with
      | e :: rest2 =>
        if e = '"' ∨ e = '\\' ∨ e = '/' then parseJStrBody rest2.length.succ (e :: acc) rest2
        else if e = 'b' then parseJStrBody rest2.length.succ ('\x08' :: acc) rest2
        else if e = 'f' then parseJStrBody rest2.length.succ ('\x0c' :: acc) rest2
        else if e = 'n' then parseJStrBody rest2.length.succ ('\n' :: acc) rest2
        else if e = 'r' then parseJStrBody rest2.length.succ ('\r' :: acc) rest2
        else if e = 't' then parseJStrBody rest2.length.succ ('\t' :: acc) rest2
        else if e = 'u' then
          match rest2 with
          | h1 :: h2 :: h3 :: h4 :: rest3 =>
            match hexVal h1, hexVal h2, hexVal h3, hexVal h4 with
            | some v1, some v2, some v3, some v4 =>
              parseJStrBody rest3.length.succ
                (Char.ofNat (((v1 * 16 + v2) * 16 + v3) * 16 + v4) :: acc) rest3
            | _, _, _, _ => none
          | _ => none
        else none
      | [] => none
    else parseJStrBody rest.length.succ (c :: acc) rest
  | _ + 1, _, [] => none

/-- A JSON integer literal (optional minus, then digits). -/
def parseJNum : List Char → Option (ℤ × List Char)
  | '-' :: rest =>
    let (ds, rest2) := rest.span Char.isDigit
    if ds = [] then none
    else some (-(ds.foldl (fun a c => a * 10 + (c.toNat - '0'.toNat)) 0 : ℕ), rest2)
  | cs =>
    let (ds, rest2) := cs.span Char.isDigit
    if ds = [] then none
    else some (((ds.foldl (fun a c => a * 10 + (c.toNat - '0'.toNat)) 0 : ℕ) : ℤ), rest2)

/-- The members of a JSON object after the opening brace (non-empty case),
parameterised by the value parser `pv` to avoid mutual recursion. -/
def parseJMembers (pv : List Char → Option (Json × List Char)) :
    ℕ → List Char → Option (List (String × Json) × List Char)
  | 0, _ => none
  | fuel + 1, cs =>
    match skipWs cs with
    | q :: rest =>
      if q = '"' then
        match parseJStrBody rest.length.succ [] rest with
        | some (key, rest2) =>
          match skipWs rest2 with
          | c :: rest3 =>
            if c = ':' then
              match pv rest3 with
              | some (v, rest4) =>
                match skipWs rest4 with
                | d :: rest5 =>
                  if d = ',' then
                    match parseJMembers pv fuel rest5 with
                    | some (kvs, rest6) => some ((key, v) :: kvs, rest6)
                    | none => none
                  else if d = rbrace then some ([(key, v)], rest5)
                  else none
                | [] => none
              | none => none
            else none
          | [] => none
        | none => none
      else none
    | [] => none

/-- The items of a JSON array after the opening bracket (non-empty case). -/
def parseJItems (pv : List Char → Option (Json × List Char)) :
    ℕ → List Char → Option (List Json × List Char)
  | 0, _ => none
  | fuel + 1, cs =>
    match pv cs with
    | some (v, rest) =>
      match skipWs rest with
      | d :: rest2 =>
        if d = ',' then
          match parseJItems pv fuel rest2 with
          | some (vs, rest3) => some (v :: vs, rest3)
          | none => none
        else if d = ']' then some ([v], rest2)
        else none
      | [] => none
    | none => none

/-- A JSON value (model of the parsing done by Python's `json.loads`). -/
def parseJVal : ℕ → List Char → Option (Json × List Char)
  | 0, _ => none
  | fuel + 1, cs =>
    match skipWs cs with
    | [] => none
    | c :: rest =>
      if c = '"' then
        match parseJStrBody rest.length.succ [] rest with
        | some (s, rest2) => some (Json.str s, rest2)
        | none => none
      else if c = lbrace then
        match skipWs rest with
        | d :: rest2 =>
          if d = rbrace then some (Json.obj [], rest2)
          else
            match parseJMembers (parseJVal fuel) (rest.length + 1) rest with
            | some (kvs, rest3) => some (Json.obj kvs, rest3)
            | none => none
        | [] => none
      else if c = '[' then
        match skipWs rest with
        | d :: rest2 =>
          if d = ']' then some (Json.arr [], rest2)
          else
            match parseJItems (parseJVal fuel) (rest.length + 1) rest with
            | some (vs, rest3) => some (Json.arr vs, rest3)
            | none => none
        | [] => none
      else
        match c :: rest with
        | 't' :: 'r' :: 'u' :: 'e' :: rest2 => some (Json.jbool true, rest2)
        | 'f' :: 'a' :: 'l' :: 's' :: 'e' :: rest2 => some (Json.jbool false, rest2)
        | 'n' :: 'u' :: 'l' :: 'l' :: rest2 => some (Json.jnull, rest2)
        | cs2 =>
          match parseJNum cs2 with
          | some (n, rest2) => some (Json.num n, rest2)
          | none => none

/-- Model of `json.loads` on the fragment the recognizer handles: the parsed
value with only trailing whitespace remaining, else a decode error
(`none`). -/
def jsonLoads (s : String) : Option Json :=
  match parseJVal (s.data.length + 1) s.data with
  | some (j, rest) => if skipWs rest = [] then some j else none
  | none => none

/-- The `re.search` of the raw pattern brace-dot-star-brace with `DOTALL` in
`_parse_response` (src/vision/piece_recognition.py line 218): the substring
from the first opening brace to the last closing brace, provided the latter
comes after the former. -/
def jsonExtract (s : String) : Option String :=
  let cs := s.data
  match cs.findIdx? (fun c => c = lbrace) with
  | none => none
  | some i =>
    match cs.reverse.findIdx? (fun c => c = rbrace) with
    | none => none
    | some ri =>
      let j := cs.length - 1 - ri
      if i < j then some ⟨(cs.drop i).take (j - i + 1)⟩ else none

/-- Python's `\w` (ASCII fragment). -/
def wordChar (c : Char) : Bool := c.isAlphanum || c = '_'

/-- Python's `\s` (ASCII fragment). -/
def wsChar (c : Char) : Bool :=
  c = ' ' || c = '\t' || c = '\n' || c = '\r' || c = '\x0b' || c = '\x0c'

/-- The characters matched by the square class `[a-h]` under `IGNORECASE`. -/
def fileChars : List Char :=
  ['a', 'b', 'c', 'd', 'e', 'f', 'g', 'h',
   'A', 'B', 'C', 'D', 'E', 'F', 'G', 'H']

/-- Membership in `[a-h]` with `IGNORECASE`. -/
def isFileChar (c : Char) : Bool := fileChars.contains c

/-- The characters of the rank class `[1-8]`. -/
def rankChars : List Char := ['1', '2', '3', '4', '5', '6', '7', '8']

/-- Membership in `[1-8]`. -/
def isRankChar (c : Char) : Bool := rankChars.contains c

/-- Require one literal character. -/
def consumeReq (c : Char) : List Char → Option (List Char)
  | d :: rest => if d = c then some rest else none
  | [] => none

/-- Optionally consume one literal character (greedy `?`). -/
def consumeOpt (c : Char) : List Char → List Char
  | d :: rest => if d = c then rest else d :: rest
  | [] => []

/-- Case-insensitive literal match (the `IGNORECASE` flag applies to the
quoted key names in the first fallback pattern). -/
def matchLitCI : List Char → List Char → Option (List Char)
  | [], cs => some cs
  | l :: ls, c :: cs => if c.toLower = l.toLower then matchLitCI ls cs else none
  | _ :: _, [] => none

/-- One capture triple of the fallback parser: (square, group2, group3). -/
abbrev Caps := String × String × String

/-- Tail of the first fallback pattern after `([a-h][1-8]):` — optional
whitespace and brace, then the quoted `piece`/`color` key-value pair syntax;
the two captured words are returned.  Deterministic because the word,
whitespace and punctuation character classes are disjoint. -/
def matchP1tail (rest : List Char) : Option ((String × String) × List Char) :=
  let r1 := rest.dropWhile wsChar
  let r2 := consumeOpt lbrace r1
  match matchLitCI ['"', 'p', 'i', 'e', 'c', 'e', '"', ':'] r2 with
  | some r3 =>
    let r4 := r3.dropWhile wsChar
    match consumeReq '"' r4 with
    | some r5 =>
      let w1 := r5.takeWhile wordChar
      let r6 := r5.dropWhile wordChar
      if w1 = [] then none
      else
        match (consumeReq '"' r6).bind (consumeReq ',') with
        | some r7 =>
          let r8 := r7.dropWhile wsChar
          match matchLitCI ['"', 'c', 'o', 'l', 'o', 'r', '"', ':'] r8 with
          | some r9 =>
            let r10 := r9.dropWhile wsChar
            match consumeReq '"' r10 with
            | some r11 =>
              let w2 := r11.takeWhile wordChar
              let r12 := r11.dropWhile wordChar
              if w2 = [] then none
              else
                match consumeReq '"' r12 with
                | some r13 => some ((⟨w1⟩, ⟨w2⟩), consumeOpt rbrace r13)
                | none => none
            | none => none
          | none => none
        | none => none
    | none => none
  | none => none

/-- The first fallback pattern of `_parse_text_response` (line 244); groups
2 and 3 are the piece and color words. -/
def matchP1 : List Char → Option (Caps × List Char)
  | c0 :: c1 :: c2 :: rest =>
    if c2 = ':' ∧ isFileChar c0 ∧ isRankChar c1 then
      (matchP1tail rest).map (fun x => ((⟨[c0, c1]⟩, x.1.1, x.1.2), x.2))
    else none
  | _ => none

/-- Tail of the second fallback pattern after `([a-h][1-8]):` — the two
whitespace-separated words. -/
def matchP2tail (rest : List Char) : Option ((String × String) × List Char) :=
  let r1 := rest.dropWhile wsChar
  let w1 := r1.takeWhile wordChar
  let r2 := r1.dropWhile wordChar
  if w1 = [] then none
  else
    let sp := r2.takeWhile wsChar
    let r3 := r2.dropWhile wsChar
    if sp = [] then none
    else
      let w2 := r3.takeWhile wordChar
      let r4 := r3.dropWhile wordChar
      if w2 = [] then none
      else some ((⟨w1⟩, ⟨w2⟩), r4)

/-- The second fallback pattern (line 245); groups 2 and 3 are color then
piece. -/
def matchP2 : List Char → Option (Caps × List Char)
  | c0 :: c1 :: c2 :: rest =>
    if c2 = ':' ∧ isFileChar c0 ∧ isRankChar c1 then
      (matchP2tail rest).map (fun x => ((⟨[c0, c1]⟩, x.1.1, x.1.2), x.2))
    else none
  | _ => none

/-- Tail of the third fallback pattern after `([a-h][1-8])` — optional
whitespace, a dash or colon separator, then the two words. -/
def matchP3tail (rest : List Char) : Option ((String × String) × List Char) :=
  let r1 := rest.dropWhile wsChar
  match r1 with
  | d :: r2 =>
    if d = '-' ∨ d = ':' then matchP2tail r2
    else none
  | [] => none

/-- The third fallback pattern (line 246); groups 2 and 3 are color then
piece. -/
def matchP3 : List Char → Option (Caps × List Char)
  | c0 :: c1 :: rest =>
    if isFileChar c0 ∧ isRankChar c1 then
      (matchP3tail rest).map (fun x => ((⟨[c0, c1]⟩, x.1.1, x.1.2), x.2))
    else none
  | _ => none

/-- Model of `re.finditer`: scan left to right, returning non-overlapping matches and
resuming after each match's end. -/
def findIter (matcher : List Char → Option (Caps × List Char)) :
    ℕ → List Char → List Caps
  | 0, _ => []
  | fuel + 1, cs =>
    match cs with
    | [] => []
    | _ :: tail =>
      match matcher cs with
      | some (caps, restAfter) => caps :: findIter matcher fuel restAfter
      | none => findIter matcher fuel tail

/-- Python dict assignment `piece_map[square] = ...`: overwrite in place or
append, preserving insertion order. -/
def dictSet {α : Type} (l : List (String × α)) (k : String) (v : α) :
    List (String × α) :=
  if l.any (fun kv => kv.1 = k) then
    l.map (fun kv => if kv.1 = k then (k, v) else kv)
  else l ++ [(k, v)]

/-- Model of `PieceRecognizer._parse_text_response` (lines 230-263): the three
patterns applied in order over the whole reply, each match stored under the
lowercased square with the (piece, color) words lowercased; for the first
pattern group 2 is the piece, for the other two group 2 is the color. -/
def parse_text_response (response : String) : List (String × String × String) :=
  let cs := response.data
  let m1 := findIter matchP1 (cs.length + 1) cs
  let m2 := findIter matchP2 (cs.length + 1) cs
  let m3 := findIter matchP3 (cs.length + 1) cs
  let step1 := m1.foldl
    (fun d caps => dictSet d (pyLower caps.1) (pyLower caps.2.1, pyLower caps.2.2)) []
  let step2 := m2.foldl
    (fun d caps => dictSet d (pyLower caps.1) (pyLower caps.2.2, pyLower caps.2.1)) step1
  m3.foldl
    (fun d caps => dictSet d (pyLower caps.1) (pyLower caps.2.2, pyLower caps.2.1)) step2

/-- The fallback result as the JSON-like dictionary the caller receives. -/
def parseTextJson (response : String) : Json :=
  Json.obj ((parse_text_response response).map (fun kv =>
    (kv.1, Json.obj [("piece", Json.str kv.2.1), ("color", Json.str kv.2.2)])))

/-- Model of `PieceRecognizer._parse_response` (lines 206-228): extract the brace
span and decode it, returning the decoded object verbatim; on a missing span
or a decode error, fall back to the permissive text parser.  Total: every
reply yields a value. -/
def parse_response (response : String) : Json :=
  match jsonExtract response with
  | some jstr =>
    match jsonLoads jstr with
    | some piece_map => piece_map
    | none => parseTextJson response
  | none => parseTextJson response

/-- The known square vocabulary a1-h8. -/
def isKnownSquare (s : String) : Bool :=
  match s.data with
  | [c, d] => ('a' ≤ c ∧ c ≤ 'h') ∧ ('1' ≤ d ∧ d ≤ '8')
  | _ => false

/-- The known piece vocabulary. -/
def isKnownPiece (s : String) : Bool :=
  ["pawn", "knight", "bishop", "rook", "queen", "king"].contains s

/-- The known color vocabulary. -/
def isKnownColor (s : String) : Bool := ["white", "black"].contains s

/-- The square-shape property of a capture triple. -/
def capsSquareOk (caps : Caps) : Prop :=
  ∃ c0 c1, caps.1 = (⟨[c0, c1]⟩ : String) ∧ isFileChar c0 = true ∧
    isRankChar c1 = true

end Recognition

namespace FenConverter

lemma pieceSymbol_ok {p q : String} {ch : Char} (h : pieceSymbol p q = some ch) :
    pieceOk ch := by
  unfold pieceSymbol at h
  split_ifs at h <;> simp_all <;> subst h <;> constructor <;> decide

lemma entryCell_ok {s : String} {i : PieceInfo} {r c : Fin 8} {ch : Char}
    (h : entryCell s i = some (r, c, ch)) : pieceOk ch := by
  unfold entryCell at h
  rcases hs : s.data with _ | ⟨c0, _ | ⟨c1, rest⟩⟩ <;> simp only [hs] at h
  · exact absurd h (by simp)
  · exact absurd h (by simp)
  rcases hd : pyDigit c1 with _ | d <;> simp only [hd] at h
  · exact absurd h (by simp)
  split_ifs at h
  rcases i with ⟨p, q⟩
  rcases p with _ | p <;> rcases q with _ | q <;> simp only at h
  · exact absurd h (by simp)
  · exact absurd h (by simp)
  · exact absurd h (by simp)
  rcases hps : pieceSymbol (pyLower p) (pyLower q) with _ | sym <;> simp only [hps] at h
  · exact absurd h (by simp)
  simp only [Option.some.injEq, Prod.mk.injEq] at h
  obtain ⟨-, -, h3⟩ := h
  subst h3
  exact pieceSymbol_ok hps

lemma stepGrid_ok {g : Grid} (hg : ∀ r c ch, g r c = some ch → pieceOk ch)
    (e : String × PieceInfo) :
    ∀ r c ch, stepGrid g e r c = some ch → pieceOk ch := by
  intro r c ch h
  unfold stepGrid at h
  rcases he : entryCell e.1 e.2 with _ | ⟨⟨rr, cc, sym⟩⟩ <;> simp only [he] at h
  · exact hg _ _ _ h
  · split_ifs at h with hrc
    · simp only [Option.some.injEq] at h
      subst h
      exact entryCell_ok he
    · exact hg _ _ _ h

lemma foldl_stepGrid_ok (l : List (String × PieceInfo)) :
    ∀ (g : Grid), (∀ r c ch, g r c = some ch → pieceOk ch) →
      ∀ r c ch, (l.foldl stepGrid g) r c = some ch → pieceOk ch := by
  induction l with
  | nil => intro g hg; exact hg
  | cons e rest ih =>
    intro g hg
    rw [List.foldl_cons]
    exact ih _ (stepGrid_ok hg e)

lemma boardArray_ok (pm : PieceMap) (r c : Fin 8) {ch : Char}
    (h : boardArray pm r c = some ch) : pieceOk ch := by
  refine foldl_stepGrid_ok pm _ ?_ r c ch h
  intro a b d hd
  exact absurd hd (by simp)

lemma segSum_append (a b : String) : segSum (a ++ b) = segSum a + segSum b := by
  simp [segSum, String.data_append]

lemma segSum_repr {k : ℕ} (h1 : 1 ≤ k) (h8 : k ≤ 8) :
    segSum (toString k) = k ∧ (toString k).data.all (fun c => c ≠ '/') ∧
      (toString k).data ≠ [] := by
  interval_cases k <;> exact ⟨by decide, by decide, by decide⟩

lemma segSum_fenRowAux (cells : List (Option Char))
    (hok : ∀ ch, some ch ∈ cells → pieceOk ch) :
    ∀ k, k + cells.length ≤ 8 → segSum (fenRowAux cells k) = k + cells.length := by
  induction cells with
  | nil =>
    intro k hk
    unfold fenRowAux
    rcases Nat.eq_zero_or_pos k with h0 | h1
    · subst h0; simp [segSum]
    · rw [if_pos h1]
      simpa using (segSum_repr h1 (by simpa using hk)).1
  | cons cell rest ih =>
    intro k hk
    have hokr : ∀ ch, some ch ∈ rest → pieceOk ch := fun ch hm => hok ch (by simp [hm])
    cases cell with
    | none =>
      unfold fenRowAux
      have := ih hokr (k + 1) (by simp at hk ⊢; omega)
      rw [this]
      simp only [List.length_cons]
      omega
    | some sym =>
      have hsym : pieceOk sym := hok sym (by simp)
      unfold fenRowAux
      rw [segSum_append, segSum_append]
      have hrest := ih hokr 0 (by simp at hk ⊢; omega)
      have hsingle : segSum (String.singleton sym) = 1 := by
        simp [segSum, String.singleton, segVal, hsym.1]
      rw [hrest, hsingle]
      rcases Nat.eq_zero_or_pos k with h0 | h1
      · subst h0
        have h0s : segSum "" = 0 := by simp [segSum]
        rw [if_neg (by omega), h0s]
        simp only [List.length_cons]
        omega
      · rw [if_pos h1]
        rw [(segSum_repr h1 (by simp at hk; omega)).1]
        simp only [List.length_cons]
        omega

lemma fenRowAux_no_slash (cells : List (Option Char))
    (hok : ∀ ch, some ch ∈ cells → pieceOk ch) :
    ∀ k, k + cells.length ≤ 8 → '/' ∉ (fenRowAux cells k).data := by
  induction cells with
  | nil =>
    intro k hk
    unfold fenRowAux
    rcases Nat.eq_zero_or_pos k with h0 | h1
    · subst h0; simp
    · rw [if_pos h1]
      have hall := (segSum_repr h1 (by simpa using hk)).2.1
      simp only [List.all_eq_true] at hall
      intro hmem
      have h2 := hall _ hmem
      simp at h2
  | cons cell rest ih =>
    intro k hk
    have hokr : ∀ ch, some ch ∈ rest → pieceOk ch := fun ch hm => hok ch (by simp [hm])
    cases cell with
    | none =>
      unfold fenRowAux
      exact ih hokr (k + 1) (by simp at hk ⊢; omega)
    | some sym =>
      have hsym : pieceOk sym := hok sym (by simp)
      unfold fenRowAux
      intro hmem
      rw [String.data_append, String.data_append] at hmem
      rcases List.mem_append.mp hmem with hmem | hmem
      · rcases List.mem_append.mp hmem with hmem | hmem
        · rcases Nat.eq_zero_or_pos k with h0 | h1
          · subst h0; simp at hmem
          · rw [if_pos h1] at hmem
            have hall := (segSum_repr h1 (by simp at hk; omega)).2.1
            simp only [List.all_eq_true] at hall
            have h2 := hall _ hmem
            simp at h2
        · have hsq : '/' = sym := by simpa [String.singleton] using hmem
          exact hsym.2 hsq.symm
      · exact ih hokr 0 (by simp at hk ⊢; omega) hmem

lemma fenRowAux_ne_empty (cells : List (Option Char)) :
    ∀ k, k + cells.length ≤ 8 → (0 < k ∨ cells ≠ []) →
      (fenRowAux cells k).data ≠ [] := by
  induction cells with
  | nil =>
    intro k hk h
    rcases h with h | h
    · unfold fenRowAux
      rw [if_pos h]
      exact (segSum_repr h (by simpa using hk)).2.2
    · exact absurd rfl h
  | cons cell rest ih =>
    intro k hk _
    cases cell with
    | none =>
      unfold fenRowAux
      exact ih (k + 1) (by simp at hk ⊢; omega) (Or.inl (by omega))
    | some sym =>
      unfold fenRowAux
      rw [String.data_append, String.data_append]
      simp [String.singleton]

lemma fen_tail_concat (p : String) :
    p ++ " " ++ "w" ++ " " ++ "KQkq" ++ " " ++ "-" ++ " " ++ "0" ++ " " ++ "1" =
      p ++ " w KQkq - 0 1" := by
  apply String.ext
  simp only [String.data_append, List.append_assoc]
  congr 1

end FenConverter

namespace Mapping

lemma parseSquare_squareName {f r : ℕ} (hf : f < 8) (hr : r < 8) :
    parseSquare (squareName f r) = some (f, r) := by
  interval_cases f <;> interval_cases r <;> decide

lemma pyInt_eq_floor {q : ℚ} (h : 0 ≤ q) : pyInt q = ⌊q⌋ := if_pos h

/-- Evaluation rule for `pyInt` on a nonnegative value. -/
lemma pyInt_eval_pos {q : ℚ} {z : ℤ} (h0 : (0 : ℚ) ≤ q) (h1 : (z : ℚ) ≤ q)
    (h2 : q < z + 1) : pyInt q = z := by
  rw [pyInt, if_pos h0]
  exact Int.floor_eq_iff.mpr ⟨h1, h2⟩

/-- Evaluation rule for `pyInt` on a negative value (truncation toward 0). -/
lemma pyInt_eval_neg {q : ℚ} {z : ℤ} (h0 : ¬ (0 : ℚ) ≤ q) (h1 : (z : ℚ) - 1 < q)
    (h2 : q ≤ z) : pyInt q = z := by
  rw [pyInt, if_neg h0]
  exact Int.ceil_eq_iff.mpr ⟨h1, h2⟩

/-- One axis of the round trip: mapping cell index `pc` to a centre pixel and
back recovers `pc`, provided the axis offset is nonnegative and the cell size
`k` is a positive integer. -/
lemma cell_roundtrip (off : ℤ) (k pc : ℕ) (hoff : 0 ≤ off) (hk : 1 ≤ k)
    (hpc : pc ≤ 7) :
    max 0 (min 7 (pyInt
      ((((pyInt ((off : ℚ) + ((pc : ℚ) + 1/2) * k)) : ℚ) - off) / k))) = (pc : ℤ) := by
  have hk0 : (0 : ℚ) < k := by exact_mod_cast hk
  have h1 : (0 : ℚ) ≤ (off : ℚ) + ((pc : ℚ) + 1/2) * k := by positivity
  rw [pyInt_eq_floor h1]
  have h2 : (off : ℚ) + ((pc : ℚ) + 1/2) * k =
      ((off + (pc : ℤ) * k : ℤ) : ℚ) + (k : ℚ) / 2 := by push_cast; ring
  rw [h2, Int.floor_int_add]
  set e := ⌊(k : ℚ) / 2⌋ with he
  have he0 : 0 ≤ e := Int.floor_nonneg.mpr (by positivity)
  have hek : e < k := by
    rw [he]
    exact Int.floor_lt.mpr (by
      push_cast
      linarith)
  have h3 : (((off + (pc : ℤ) * k + e : ℤ) : ℚ) - off) / k =
      (((pc : ℤ) * k + e : ℤ) : ℚ) / k := by push_cast; ring
  rw [h3]
  have h4 : (0 : ℚ) ≤ (((pc : ℤ) * k + e : ℤ) : ℚ) / k := by
    apply div_nonneg _ (le_of_lt hk0)
    push_cast
    have : (0 : ℚ) ≤ (pc : ℚ) * k := by positivity
    have he0q : (0 : ℚ) ≤ (e : ℚ) := by exact_mod_cast he0
    linarith
  rw [pyInt_eq_floor h4]
  have h5 : ⌊(((pc : ℤ) * k + e : ℤ) : ℚ) / k⌋ = (pc : ℤ) := by
    rw [Int.floor_eq_iff]
    constructor
    · rw [le_div_iff₀ hk0]
      push_cast
      have he0q : (0 : ℚ) ≤ (e : ℚ) := by exact_mod_cast he0
      linarith
    · rw [div_lt_iff₀ hk0]
      push_cast
      have hekq : (e : ℚ) < (k : ℚ) := by exact_mod_cast hek
      linarith
  rw [h5]
  omega


end Mapping

namespace Validator

lemma detectFirst_mem {Board Move : Type} (lib : ChessLib Board Move)
    (b nb : Board) :
    ∀ (l : List Move) (u : String), detectFirst lib b nb l = some u →
      ∃ m ∈ l, u = lib.uci m := by
  intro l
  induction l with
  | nil => intro u h; exact absurd h (by simp [detectFirst])
  | cons m rest ih =>
    intro u h
    rw [detectFirst] at h
    split_ifs at h with hm
    · simp only [Option.some.injEq] at h
      exact ⟨m, by simp, h.symm⟩
    · obtain ⟨m', hmem, hu⟩ := ih u h
      exact ⟨m', by simp [hmem], hu⟩

lemma detectFirst_eq_find {Board Move : Type} (lib : ChessLib Board Move)
    (b nb : Board) :
    ∀ (l : List Move), detectFirst lib b nb l =
      (l.find? (fun m => positions_equal lib (lib.push b m) nb)).map lib.uci := by
  intro l
  induction l with
  | nil => simp [detectFirst]
  | cons m rest ih =>
    rw [detectFirst, List.find?_cons]
    by_cases hm : positions_equal lib (lib.push b m) nb
    · rw [if_pos hm, hm]
      rfl
    · rw [if_neg hm, ih]
      have : positions_equal lib (lib.push b m) nb = false := by
        simpa using hm
      rw [this]

end Validator

namespace Recognition

lemma matchP1_square {cs : List Char} {caps : Caps} {rest : List Char}
    (h : matchP1 cs = some (caps, rest)) : capsSquareOk caps := by
  rcases cs with _ | ⟨c0, _ | ⟨c1, _ | ⟨c2, cs'⟩⟩⟩
  · exact absurd h (by simp [matchP1])
  · exact absurd h (by simp [matchP1])
  · exact absurd h (by simp [matchP1])
  rw [matchP1] at h
  split_ifs at h with hg
  rcases hm : matchP1tail cs' with _ | x <;> rw [hm] at h <;>
    simp only [Option.map_none', Option.map_some'] at h
  · exact absurd h (by simp)
  · simp only [Option.some.injEq, Prod.mk.injEq] at h
    exact ⟨c0, c1, by rw [← h.1], by simpa using hg.2.1, by simpa using hg.2.2⟩

lemma matchP2_square {cs : List Char} {caps : Caps} {rest : List Char}
    (h : matchP2 cs = some (caps, rest)) : capsSquareOk caps := by
  rcases cs with _ | ⟨c0, _ | ⟨c1, _ | ⟨c2, cs'⟩⟩⟩
  · exact absurd h (by simp [matchP2])
  · exact absurd h (by simp [matchP2])
  · exact absurd h (by simp [matchP2])
  rw [matchP2] at h
  split_ifs at h with hg
  rcases hm : matchP2tail cs' with _ | x <;> rw [hm] at h <;>
    simp only [Option.map_none', Option.map_some'] at h
  · exact absurd h (by simp)
  · simp only [Option.some.injEq, Prod.mk.injEq] at h
    exact ⟨c0, c1, by rw [← h.1], by simpa using hg.2.1, by simpa using hg.2.2⟩

lemma matchP3_square {cs : List Char} {caps : Caps} {rest : List Char}
    (h : matchP3 cs = some (caps, rest)) : capsSquareOk caps := by
  rcases cs with _ | ⟨c0, _ | ⟨c1, cs'⟩⟩
  · exact absurd h (by simp [matchP3])
  · exact absurd h (by simp [matchP3])
  rw [matchP3] at h
  split_ifs at h with hg
  rcases hm : matchP3tail cs' with _ | x <;> rw [hm] at h <;>
    simp only [Option.map_none', Option.map_some'] at h
  · exact absurd h (by simp)
  · simp only [Option.some.injEq, Prod.mk.injEq] at h
    exact ⟨c0, c1, by rw [← h.1], by simpa using hg.1, by simpa using hg.2⟩

lemma square_tok_valid {caps : Caps} (h : capsSquareOk caps) :
    isKnownSquare (pyLower caps.1) = true := by
  obtain ⟨c0, c1, hsq, h0, h1⟩ := h
  rw [hsq]
  have h0' : c0 ∈ fileChars := by
    simpa [isFileChar, List.contains] using h0
  have h1' : c1 ∈ rankChars := by
    simpa [isRankChar, List.contains] using h1
  fin_cases h0' <;> fin_cases h1' <;> decide

lemma findIter_square {matcher : List Char → Option (Caps × List Char)}
    (hm : ∀ cs caps rest, matcher cs = some (caps, rest) → capsSquareOk caps) :
    ∀ (fuel : ℕ) (cs : List Char) (caps : Caps),
      caps ∈ findIter matcher fuel cs → capsSquareOk caps := by
  intro fuel
  induction fuel with
  | zero => intro cs caps h; exact absurd h (by simp [findIter])
  | succ fuel ih =>
    intro cs caps h
    rcases cs with _ | ⟨c, tail⟩
    · exact absurd h (by simp [findIter])
    · rw [findIter] at h
      rcases hmt : matcher (c :: tail) with _ | ⟨cp, restAfter⟩ <;> rw [hmt] at h
      · exact ih tail caps h
      · rcases List.mem_cons.mp h with h | h
        · exact h ▸ hm _ _ _ hmt
        · exact ih restAfter caps h

lemma dictSet_keys {α : Type} {l : List (String × α)}
    (hl : ∀ kv ∈ l, isKnownSquare kv.1 = true) {k : String} (v : α)
    (hk : isKnownSquare k = true) :
    ∀ kv ∈ dictSet l k v, isKnownSquare kv.1 = true := by
  intro kv hkv
  unfold dictSet at hkv
  split_ifs at hkv
  · obtain ⟨kv0, hkv0, hmap⟩ := List.mem_map.mp hkv
    by_cases he : kv0.1 = k
    · rw [if_pos he] at hmap
      rw [← hmap]
      exact hk
    · rw [if_neg he] at hmap
      exact hmap ▸ hl kv0 hkv0
  · rcases List.mem_append.mp hkv with h | h
    · exact hl kv h
    · simp only [List.mem_singleton] at h
      rw [h]
      exact hk

lemma foldl_dictSet_keys {α : Type} (g : Caps → α) (ms : List Caps)
    (hms : ∀ caps ∈ ms, capsSquareOk caps) :
    ∀ (init : List (String × α)), (∀ kv ∈ init, isKnownSquare kv.1 = true) →
      ∀ kv ∈ ms.foldl (fun d caps => dictSet d (pyLower caps.1) (g caps)) init,
        isKnownSquare kv.1 = true := by
  induction ms with
  | nil => intro init hinit kv hkv; exact hinit kv hkv
  | cons caps rest ih =>
    intro init hinit kv hkv
    rw [List.foldl_cons] at hkv
    refine ih (fun c hc => hms c (by simp [hc])) _ ?_ kv hkv
    exact dictSet_keys hinit _ (square_tok_valid (hms caps (by simp)))

lemma parse_text_response_keys (r : String) :
    ∀ e ∈ parse_text_response r, isKnownSquare e.1 = true := by
  intro e he
  unfold parse_text_response at he
  refine foldl_dictSet_keys _ _ (fun caps hc => findIter_square
      (fun _ _ _ hm => matchP3_square hm) _ _ caps hc) _ ?_ e he
  intro kv hkv
  refine foldl_dictSet_keys _ _ (fun caps hc => findIter_square
      (fun _ _ _ hm => matchP2_square hm) _ _ caps hc) _ ?_ kv hkv
  intro kv2 hkv2
  refine foldl_dictSet_keys _ _ (fun caps hc => findIter_square
      (fun _ _ _ hm => matchP1_square hm) _ _ caps hc) _ ?_ kv2 hkv2
  intro kv3 hkv3
  exact absurd hkv3 (by simp)


end Recognition

open FenConverter in
/-- C1: for every piece map and any side-to-move/castling/en-passant/counter
arguments, the board-layout field of `piece_map_to_fen`'s result consists of
exactly 8 rank segments separated by `/` (each nonempty and slash-free, so
the split is exact), and in each segment the digits (as empty-run lengths)
plus the piece letters (1 each) sum to exactly 8. -/
theorem piece_map_to_fen_eight_ranks (pm : PieceMap)
    (stm cr ep : String) (hc fn : ℤ) :
    ∃ rows : List String,
      piece_map_to_fen pm stm cr ep hc fn =
        String.intercalate "/" rows ++ " " ++
          (if pyLower stm = "white" then "w" else "b") ++ " " ++ cr ++ " " ++ ep
          ++ " " ++ toString hc ++ " " ++ toString fn ∧
      rows.length = 8 ∧
      ∀ s ∈ rows, segSum s = 8 ∧ s.data ≠ [] ∧ '/' ∉ s.data := by
  refine ⟨fenRows (boardArray pm), rfl, by simp [fenRows], ?_⟩
  intro s hs
  simp only [fenRows, List.mem_map] at hs
  obtain ⟨r, -, rfl⟩ := hs
  have hlen : ((List.finRange 8).map (fun c => boardArray pm r c)).length = 8 := by
    simp
  have hok : ∀ ch, some ch ∈ (List.finRange 8).map (fun c => boardArray pm r c) →
      pieceOk ch := by
    intro ch hm
    simp only [List.mem_map] at hm
    obtain ⟨c, -, hcc⟩ := hm
    exact boardArray_ok pm r c hcc
  refine ⟨?_, ?_, ?_⟩
  · have := segSum_fenRowAux _ hok 0 (by rw [hlen])
    rw [hlen] at this
    simpa [fenRow] using this
  · exact fenRowAux_ne_empty _ 0 (by rw [hlen]) (Or.inr (by
      intro hnil
      rw [hnil] at hlen
      simp at hlen))
  · exact fenRowAux_no_slash _ hok 0 (by rw [hlen])

open FenConverter in
/-- C8: when `piece_map_to_fen` is called without explicit
side-to-move/castling/en-passant/counter arguments, as the coordinator does
each ply, the trailing fields of the returned string are exactly
`w KQkq - 0 1` — white to move with full castling rights, whatever the
actual game situation. -/
theorem piece_map_to_fen_default_tail (pm : PieceMap) :
    ∃ placement,
      piece_map_to_fen_default pm = placement ++ " w KQkq - 0 1" ∧
      placement = String.intercalate "/" (fenRows (boardArray pm)) := by
  refine ⟨String.intercalate "/" (fenRows (boardArray pm)), ?_, rfl⟩
  have h1 : piece_map_to_fen_default pm =
      String.intercalate "/" (fenRows (boardArray pm)) ++ " " ++ "w" ++ " " ++
        "KQkq" ++ " " ++ "-" ++ " " ++ "0" ++ " " ++ "1" := by
    unfold piece_map_to_fen_default piece_map_to_fen
    have hw : (if pyLower "white" = "white" then ("w" : String) else "b")
        = "w" := by decide
    have h0 : toString (0 : ℤ) = "0" := by decide
    have hone : toString (1 : ℤ) = "1" := by decide
    rw [hw, h0, hone]
  rw [h1, fen_tail_concat]

open Mapping in
/-- C2 (counterexample): the round-trip law fails as stated.  For the board
region `left=-100, top=0, width=8, height=8` (dimensions divisible by 8),
orientation `white` and the valid square `a1`, Python's truncation-toward-zero
of the negative centre coordinate makes `pixels_to_square` return `b1`. -/
theorem square_roundtrip_counterexample :
    (square_to_pixels (mkMapper (-100) 0 8 8 "white") "a1").map
        (fun p => pixels_to_square (mkMapper (-100) 0 8 8 "white") p.1 p.2) =
      some "b1" ∧ ("b1" : String) ≠ "a1" := by
  refine ⟨?_, by decide⟩
  set M := mkMapper (-100) 0 8 8 "white" with hM
  have hor : M.orientation = "white" := by
    rw [hM]
    show pyLower "white" = "white"
    decide
  have hsw : squareWidth M = 1 := by
    rw [hM]
    show (((8 : ℤ) : ℚ)) / 8 = 1
    norm_num
  have hsh : squareHeight M = 1 := by
    rw [hM]
    show (((8 : ℤ) : ℚ)) / 8 = 1
    norm_num
  have hl : ((M.left : ℤ) : ℚ) = -100 := by
    rw [hM]
    show (((-100 : ℤ) : ℚ)) = -100
    norm_num
  have ht : ((M.top : ℤ) : ℚ) = 0 := by
    rw [hM]
    show (((0 : ℤ) : ℚ)) = 0
    norm_num
  have hps : parseSquare "a1" = some (0, 0) := by decide
  rw [square_to_pixels, hps]
  simp only [Option.map_some']
  rw [if_pos hor]
  have hcc : cellCenter M 0 (7 - 0) = (-99, 7) := by
    rw [cellCenter, hsw, hsh, hl, ht]
    refine Prod.ext ?_ ?_
    · exact pyInt_eval_neg (by norm_num) (by norm_num) (by norm_num)
    · exact pyInt_eval_pos (by norm_num) (by norm_num) (by norm_num)
  rw [hcc]
  refine congrArg some ?_
  rw [pixels_to_square, hsw, hsh, hl, ht]
  rw [show pyInt (((((-99, 7) : ℤ × ℤ).1 : ℚ) - -100) / 1) = 1 from
      pyInt_eval_pos (by norm_num) (by norm_num) (by norm_num),
    show pyInt (((((-99, 7) : ℤ × ℤ).2 : ℚ) - 0) / 1) = 7 from
      pyInt_eval_pos (by norm_num) (by norm_num) (by norm_num)]
  rw [if_pos hor]
  decide

open Mapping in
/-- C2 (amended): the round-trip law
`pixels_to_square (square_to_pixels s) = s` holds for every valid square and
both orientations provided the region's width and height are positive
multiples of 8 and its left and top offsets are nonnegative (the unrestricted
claim fails for negative offsets, see the counterexample). -/
theorem square_roundtrip (left top : ℤ) (k m : ℕ) (ori : String) (f r : ℕ)
    (hleft : 0 ≤ left) (htop : 0 ≤ top) (hk : 1 ≤ k) (hm : 1 ≤ m)
    (hf : f < 8) (hr : r < 8) (hori : ori = "white" ∨ ori = "black") :
    (square_to_pixels (mkMapper left top (8 * k) (8 * m) ori) (squareName f r)).map
        (fun p => pixels_to_square (mkMapper left top (8 * k) (8 * m) ori) p.1 p.2) =
      some (squareName f r) := by
  set mp := mkMapper left top (8 * k) (8 * m) ori with hmp
  have hsw : squareWidth mp = (k : ℚ) := by
    simp only [squareWidth, hmp, mkMapper]
    push_cast
    ring
  have hsh : squareHeight mp = (m : ℚ) := by
    simp only [squareHeight, hmp, mkMapper]
    push_cast
    ring
  have hps := parseSquare_squareName hf hr
  rcases hori with h | h <;> subst h
  · have hor : mp.orientation = "white" := by
      rw [hmp]
      show pyLower "white" = "white"
      decide
    simp only [square_to_pixels, hps, Option.map_some', if_pos hor]
    refine congrArg some ?_
    simp only [pixels_to_square, cellCenter, hsw, hsh, if_pos hor]
    have hleft' : mp.left = left := rfl
    have htop' : mp.top = top := rfl
    rw [hleft', htop',
      cell_roundtrip left k f hleft hk (by omega),
      cell_roundtrip top m (7 - r) htop hm (by omega)]
    interval_cases f <;> interval_cases r <;> decide
  · have hnw : ¬ mp.orientation = "white" := by
      rw [hmp]
      show ¬ pyLower "black" = "white"
      decide
    simp only [square_to_pixels, hps, Option.map_some', if_neg hnw]
    refine congrArg some ?_
    simp only [pixels_to_square, cellCenter, hsw, hsh, if_neg hnw]
    have hleft' : mp.left = left := rfl
    have htop' : mp.top = top := rfl
    rw [hleft', htop',
      cell_roundtrip left k (7 - f) hleft hk (by omega),
      cell_roundtrip top m r htop hm (by omega)]
    interval_cases f <;> interval_cases r <;> decide

open Mapping in
/-- C2 (witness): the amended round-trip theorem applied to the region
`left=0, top=0, width=8, height=8`, orientation `white`, square `a1`. -/
theorem square_roundtrip_witness :
    (square_to_pixels (mkMapper 0 0 (8 * 1) (8 * 1) "white") (squareName 0 0)).map
        (fun p => pixels_to_square (mkMapper 0 0 (8 * 1) (8 * 1) "white") p.1 p.2) =
      some (squareName 0 0) :=
  square_roundtrip 0 0 1 1 "white" 0 0 (by norm_num) (by norm_num) (by norm_num)
    (by norm_num) (by norm_num) (by norm_num) (Or.inl rfl)

open Mapping in
/-- C7: for every valid square with file index `f` and rank index `r`,
`square_to_pixels` under white-bottom orientation targets cell column `f`
and row `7 - r` (only the rank index flipped), while under black-bottom
orientation it targets cell column `7 - f` and row `r` (only the file index
flipped). -/
theorem square_to_pixels_orientation_flip (m : SquareMapper) (f r : ℕ)
    (hf : f < 8) (hr : r < 8) :
    (m.orientation = "white" →
      square_to_pixels m (squareName f r) = some (cellCenter m f (7 - r))) ∧
    (m.orientation = "black" →
      square_to_pixels m (squareName f r) = some (cellCenter m (7 - f) r)) := by
  have hps := parseSquare_squareName hf hr
  constructor
  · intro hor
    simp only [square_to_pixels, hps, Option.map_some', if_pos hor]
  · intro hor
    have hnw : ¬ m.orientation = "white" := by
      rw [hor]
      decide
    simp only [square_to_pixels, hps, Option.map_some', if_neg hnw]

open Mapping in
/-- C7 (witness): the orientation-flip theorem applied to concrete mappers
for both orientations at square `a1`. -/
theorem square_to_pixels_orientation_flip_witness :
    (square_to_pixels (mkMapper 0 0 8 8 "white") (squareName 0 0) =
      some (cellCenter (mkMapper 0 0 8 8 "white") 0 (7 - 0))) ∧
    (square_to_pixels (mkMapper 0 0 8 8 "black") (squareName 0 0) =
      some (cellCenter (mkMapper 0 0 8 8 "black") (7 - 0) 0)) :=
  ⟨(square_to_pixels_orientation_flip (mkMapper 0 0 8 8 "white") 0 0 (by norm_num)
      (by norm_num)).1 (by show pyLower "white" = "white"; decide),
   (square_to_pixels_orientation_flip (mkMapper 0 0 8 8 "black") 0 0 (by norm_num)
      (by norm_num)).2 (by show pyLower "black" = "black"; decide)⟩

open Validator in
/-- C3: `apply_move` reports success exactly when `validate_move` succeeds;
on success it pushes the parsed move and appends the UCI string to the
history, and on failure the state is returned unchanged — no partial-
application, for every behaviour of the underlying rules engine. -/
theorem apply_move_atomic {Board Move : Type} [DecidableEq Move]
    (lib : ChessLib Board Move) (s : VState Board) (u : String) :
    ((apply_move lib s u).1 = (validate_move lib s u).1) ∧
    ((validate_move lib s u).1 = false → (apply_move lib s u).2 = s) ∧
    ((validate_move lib s u).1 = true → ∃ m, lib.fromUci u = some m ∧
        (apply_move lib s u).2.board = lib.push s.board m ∧
        (apply_move lib s u).2.move_history = s.move_history ++ [u]) := by
  rcases hp : lib.fromUci u with _ | m
  · have hv : (validate_move lib s u).1 = false := by
      simp [validate_move, hp]
    refine ⟨?_, fun _ => ?_, fun htrue => absurd htrue (by simp [hv])⟩
    · simp [apply_move, hv]
    · simp [apply_move, hv]
  · by_cases hmem : m ∈ lib.legalMoves s.board
    · have hv : validate_move lib s u = (true, "Move is legal") := by
        simp [validate_move, hp, hmem]
      refine ⟨?_, fun hfalse => absurd hfalse (by simp [hv]),
        fun _ => ⟨m, rfl, ?_, ?_⟩⟩
      · simp [apply_move, hv, hp]
      · simp [apply_move, hv, hp]
      · simp [apply_move, hv, hp]
    · have hv : validate_move lib s u = (false, "Illegal move: " ++ u) := by
        simp [validate_move, hp, hmem]
      refine ⟨?_, fun _ => ?_, fun htrue => absurd htrue (by simp [hv])⟩
      · simp [apply_move, hv]
      · simp [apply_move, hv]

open Validator in
/-- C3 (witness): the no-partial-application theorem at the toy engine. -/
theorem apply_move_atomic_witness :
    ((apply_move toyLib ⟨1, []⟩ "x").1 = (validate_move toyLib ⟨1, []⟩ "x").1) ∧
    ((validate_move toyLib ⟨1, []⟩ "x").1 = false →
      (apply_move toyLib ⟨1, []⟩ "x").2 = ⟨1, []⟩) ∧
    ((validate_move toyLib ⟨1, []⟩ "x").1 = true → ∃ m, toyLib.fromUci "x" = some m ∧
        (apply_move toyLib ⟨1, []⟩ "x").2.board = toyLib.push 1 m ∧
        (apply_move toyLib ⟨1, []⟩ "x").2.move_history = [] ++ ["x"]) :=
  apply_move_atomic toyLib ⟨1, []⟩ "x"

open Validator in
/-- C9: `sync_with_fen` replaces the board when the FEN parses and leaves
the state untouched otherwise, and in both cases leaves the move history
unchanged; a failed `apply_move` also leaves the history unchanged, and
`reset` always produces an empty history — so only `reset` and a successful
`apply_move` modify the history. -/
theorem sync_with_fen_frame {Board Move : Type} [DecidableEq Move]
    (lib : ChessLib Board Move) (s : VState Board) (fen u : String) :
    ((sync_with_fen lib s fen).2.move_history = s.move_history) ∧
    (∀ b, lib.boardFromFen fen = some b → (sync_with_fen lib s fen).2.board = b) ∧
    (lib.boardFromFen fen = none → (sync_with_fen lib s fen).2 = s) ∧
    ((apply_move lib s u).1 = false →
      (apply_move lib s u).2.move_history = s.move_history) ∧
    (∀ fen? st, reset lib fen? = some st → st.move_history = []) := by
  refine ⟨?_, ?_, ?_, ?_, ?_⟩
  · rcases hb : lib.boardFromFen fen with _ | b <;> simp [sync_with_fen, hb]
  · intro b hb
    simp [sync_with_fen, hb]
  · intro hb
    simp [sync_with_fen, hb]
  · intro hfail
    rcases hp : lib.fromUci u with _ | m
    · simp [apply_move, validate_move, hp]
    · by_cases hmem : m ∈ lib.legalMoves s.board
      · exact absurd hfail (by simp [apply_move, validate_move, hp, hmem])
      · simp [apply_move, validate_move, hp, hmem]
  · intro fen? st hst
    rcases fen? with _ | f
    · simp only [reset, Option.some.injEq] at hst
      rw [← hst]
    · by_cases hf : f = ""
      · simp only [reset, if_pos hf, Option.some.injEq] at hst
        rw [← hst]
      · simp only [reset, if_neg hf, Option.map_eq_some'] at hst
        obtain ⟨b, -, hb⟩ := hst
        rw [← hb]

open Validator in
/-- C9 (witness): the frame theorem at the toy engine. -/
theorem sync_with_fen_frame_witness :
    ((sync_with_fen toyLib ⟨1, ["a"]⟩ "f").2.move_history = ["a"]) ∧
    (∀ b, toyLib.boardFromFen "f" = some b →
      (sync_with_fen toyLib ⟨1, ["a"]⟩ "f").2.board = b) ∧
    (toyLib.boardFromFen "f" = none → (sync_with_fen toyLib ⟨1, ["a"]⟩ "f").2 = ⟨1, ["a"]⟩) ∧
    ((apply_move toyLib ⟨1, ["a"]⟩ "u").1 = false →
      (apply_move toyLib ⟨1, ["a"]⟩ "u").2.move_history = ["a"]) ∧
    (∀ fen? st, reset toyLib fen? = some st → st.move_history = []) :=
  sync_with_fen_frame toyLib ⟨1, ["a"]⟩ "f" "u"

open Validator in
/-- C10: a non-`none` result of `detect_position_change` is the UCI encoding
of a member of the current legal-move set, and the call leaves the tracker
state unchanged (candidate moves are pushed only onto scratch copies). -/
theorem detect_position_change_sound {Board Move : Type}
    (lib : ChessLib Board Move) (s : VState Board) (fen : String) :
    ((detect_position_change lib s fen).2 = s) ∧
    (∀ u, (detect_position_change lib s fen).1 = some u →
      ∃ m, m ∈ lib.legalMoves s.board ∧ u = lib.uci m) := by
  rcases hb : lib.boardFromFen fen with _ | nb
  · refine ⟨by simp [detect_position_change, hb], ?_⟩
    intro u hu
    simp [detect_position_change, hb] at hu
  · refine ⟨by simp [detect_position_change, hb], ?_⟩
    intro u hu
    simp only [detect_position_change, hb] at hu
    obtain ⟨m, hmem, hui⟩ := detectFirst_mem lib s.board nb _ u hu
    exact ⟨m, hmem, hui⟩

open Validator in
/-- C10 (witness): soundness of move detection at the toy engine. -/
theorem detect_position_change_sound_witness :
    ((detect_position_change toyLib ⟨1, []⟩ "f").2 = ⟨1, []⟩) ∧
    (∀ u, (detect_position_change toyLib ⟨1, []⟩ "f").1 = some u →
      ∃ m, m ∈ toyLib.legalMoves 1 ∧ u = toyLib.uci m) :=
  detect_position_change_sound toyLib ⟨1, []⟩ "f"

open Validator in
/-- C4 (counterexample): the claim that `detect_position_change` returns
`none` when two or more distinct legal moves lead to positions equal to the
new one is false: with a rules engine in which the two distinct legal moves
5 and 6 both lead to positions that `_positions_equal` deems equal to the
parsed new position, the function returns the first match `"5"`, not
`none`. -/
theorem detect_ambiguous_counterexample :
    (5 : ℕ) ∈ toyLib.legalMoves 1 ∧ (6 : ℕ) ∈ toyLib.legalMoves 1 ∧
    (5 : ℕ) ≠ 6 ∧
    toyLib.boardFromFen "f" = some 99 ∧
    positions_equal toyLib (toyLib.push 1 5) 99 = true ∧
    positions_equal toyLib (toyLib.push 1 6) 99 = true ∧
    (detect_position_change toyLib ⟨1, []⟩ "f").1 = some "5" := by
  refine ⟨by decide, by decide, by decide, rfl, rfl, rfl, ?_⟩
  rfl

open Validator in
/-- C4 (amended): `detect_position_change` returns `none` exactly when the
new position string fails to parse or no legal move leads to an equal
position; otherwise it returns the UCI of the *first* matching move in
legal-move enumeration order — there is no ambiguity check for multiple
matches. -/
theorem detect_position_change_first_match {Board Move : Type}
    (lib : ChessLib Board Move) (s : VState Board) (fen : String) :
    (detect_position_change lib s fen).1 =
      (lib.boardFromFen fen).bind (fun nb =>
        ((lib.legalMoves s.board).find?
          (fun m => positions_equal lib (lib.push s.board m) nb)).map lib.uci) := by
  rcases hb : lib.boardFromFen fen with _ | nb
  · simp [detect_position_change, hb]
  · simp only [detect_position_change, hb, Option.some_bind]
    rw [detectFirst_eq_find]

open Recognition in
/-- C5 (counterexample): tokens outside the known vocabularies are NOT
dropped from the returned piece map.  For the reply consisting of the JSON
object mapping the non-square `z9` to the non-piece `dragon` of non-color
`green`, the JSON path returns the decoded object verbatim, unknown tokens
included. -/
theorem parse_response_no_filter_counterexample :
    parse_response
        "\x7b\"z9\": \x7b\"piece\": \"dragon\", \"color\": \"green\"\x7d\x7d" =
      Json.obj [("z9", Json.obj
        [("piece", Json.str "dragon"), ("color", Json.str "green")])] ∧
    isKnownSquare "z9" = false ∧
    isKnownPiece "dragon" = false ∧
    isKnownColor "green" = false :=
  ⟨rfl, rfl, rfl, rfl⟩

open Recognition in
/-- C5 (amended): parsing never fails the whole call — every reply yields a
piece map by one of the three total branches — but only the fallback
line-scan constrains tokens, and it constrains only the square token (to the
shape a1-h8, lowercased): when brace extraction and JSON decoding succeed,
the decoded mapping is returned verbatim with no vocabulary filtering of
squares, pieces or colors. -/
theorem parse_response_best_effort (r : String) :
    (∀ s j, jsonExtract r = some s → jsonLoads s = some j →
      parse_response r = j) ∧
    (jsonExtract r = none → parse_response r = parseTextJson r) ∧
    (∀ s, jsonExtract r = some s → jsonLoads s = none →
      parse_response r = parseTextJson r) ∧
    (∀ e ∈ parse_text_response r, isKnownSquare e.1 = true) := by
  refine ⟨?_, ?_, ?_, parse_text_response_keys r⟩
  · intro s j hs hj
    unfold parse_response
    rw [hs]
    dsimp only
    rw [hj]
  · intro hs
    unfold parse_response
    rw [hs]
  · intro s hs hj
    unfold parse_response
    rw [hs]
    dsimp only
    rw [hj]

open Recognition in
/-- C5 (witness): the amended theorem at a brace-free reply — the fallback
path runs and its keys are valid squares. -/
theorem parse_response_best_effort_witness :
    parse_response "e2: white pawn" = parseTextJson "e2: white pawn" ∧
    (∀ e ∈ parse_text_response "e2: white pawn", isKnownSquare e.1 = true) :=
  ⟨(parse_response_best_effort "e2: white pawn").2.1 rfl,
   (parse_response_best_effort "e2: white pawn").2.2.2⟩

open GameLoop in
/-- C6 (counterexample): a ply whose recognized position fails structural
validation does not let the session continue to the next capture.  With two
plies available, a failing first validation stops the loop after a single
capture, while two clean plies yield two captures — the session halts
instead of skipping to the next capture. -/
theorem invalid_fen_halts_counterexample :
    play_one_move ⟨false, 10⟩ ⟨false, false, true, true⟩ ⟨0, true⟩ =
      (false, ⟨0, true⟩) ∧
    run_loop ⟨false, 10⟩ [⟨false, false, true, true⟩, ⟨true, false, true, true⟩]
      ⟨0, true⟩ = (⟨0, true⟩, 1) ∧
    run_loop ⟨false, 10⟩ [⟨true, false, true, true⟩, ⟨true, false, true, true⟩]
      ⟨0, true⟩ = (⟨2, true⟩, 2) := by
  refine ⟨rfl, rfl, rfl⟩

open GameLoop in
/-- C6 (amended): when the recognized position fails structural validation,
the coordinator logs and skips that ply — `play_one_move` returns `false`
with the agent state unchanged — and the `run` loop then breaks immediately:
exactly one capture is attempted and the session halts rather than
continuing to the next capture. -/
theorem invalid_fen_skips_and_halts (cfg : GameLoop.AgentCfg)
    (env : GameLoop.PlyEnv) (st : GameLoop.AgentState)
    (rest : List GameLoop.PlyEnv) (hfen : env.fenValid = false) :
    play_one_move cfg env st = (false, st) ∧
    (st.game_active = true → st.move_count < cfg.maxMoves →
      run_loop cfg (env :: rest) st = (st, 1)) := by
  have hp : play_one_move cfg env st = (false, st) := by
    simp [play_one_move, hfen]
  refine ⟨hp, fun hact hcnt => ?_⟩
  rw [run_loop, if_pos ⟨hact, hcnt⟩]
  simp [hp]

open GameLoop in
/-- C6 (witness): the amended theorem at a concrete configuration and
failing first ply. -/
theorem invalid_fen_skips_and_halts_witness :
    play_one_move ⟨false, 10⟩ ⟨false, false, true, true⟩ ⟨0, true⟩ =
      (false, ⟨0, true⟩) ∧
    run_loop ⟨false, 10⟩ [⟨false, false, true, true⟩] ⟨0, true⟩ =
      (⟨0, true⟩, 1) :=
  ⟨(invalid_fen_skips_and_halts ⟨false, 10⟩ ⟨false, false, true, true⟩ ⟨0, true⟩ []
      (by decide)).1,
   (invalid_fen_skips_and_halts ⟨false, 10⟩ ⟨false, false, true, true⟩ ⟨0, true⟩ []
      (by decide)).2 (by decide) (by decide)⟩
